import Mathlib

/-!
Verification of the result-submission service of `src/routes/resultRoute.py`.

The embedding models the two tables `UserTestResults` and
`UserQuestionAnswers` as lists of rows held in a `DB` value, together with
the SQLite autoincrement counters.  SQL floats are modelled as rationals
(`ℚ`), SQL `NULL` as `Option`.  `SELECT` without `ORDER BY` is modelled as
returning rows in table (rowid/insertion) order, which is what SQLite does
for the full-table scans these queries compile to; every insert appends a
row with a fresh, strictly larger id, so `ORDER BY id` coincides with table
order on reachable states (the `wellFormed` predicate states this).

The JSON codec below models `json.dumps` / `json.loads` restricted to the
values this module ever writes into the `user_answer` column: JSON arrays
of strings (with `", "` as the element separator, as `json.dumps` emits)
and `NULL`.  Any other stored document is treated as a parse failure, which
the route answers with the legacy comma-split fallback.
-/

/-- One escaped character of a JSON string literal: `json.dumps` escapes the
double quote and the backslash with a backslash. -/
def escChar (c : Char) : List Char :=
  if c = '"' ∨ c = '\\' then ['\\', c] else [c]

/-- Escape every character of a string body. -/
def escapeChars : List Char → List Char
  | [] => []
  | c :: cs => escChar c ++ escapeChars cs

/-- A JSON string literal: opening quote, escaped body, closing quote. -/
def dumpStringChars (s : List Char) : List Char :=
  '"' :: (escapeChars s ++ ['"'])

/-- The elements of a JSON array of strings, separated by `", "` (the
default separator of `json.dumps`). -/
def dumpElems : List (List Char) → List Char
  | [] => []
  | [s] => dumpStringChars s
  | s :: rest => dumpStringChars s ++ ',' :: ' ' :: dumpElems rest

/-- `json.dumps` on a list of strings. -/
def jsonDumpsList (xs : List String) : String :=
  String.mk ('[' :: (dumpElems (xs.map String.data) ++ [']']))

/-- Parse the body of a JSON string literal after the opening quote:
returns the decoded body and the remaining input after the closing
quote. -/
def parseStringBody : List Char → Option (List Char × List Char)
  | [] => none
  | c :: cs =>
    if c = '"' then some ([], cs)
    else if c = '\\' then
      match cs with
      | [] => none
      | d :: cs2 =>
        match parseStringBody cs2 with
        | none => none
        | some (s, r) => some (d :: s, r)
    else
      match parseStringBody cs with
      | none => none
      | some (s, r) => some (c :: s, r)

/-- Single unfolding equation for `parseStringBody` on a cons cell. -/
theorem parseStringBody_cons (c : Char) (cs : List Char) :
    parseStringBody (c :: cs) =
      if c = '"' then some ([], cs)
      else if c = '\\' then
        match cs with
        | [] => none
        | d :: cs2 =>
          match parseStringBody cs2 with
          | none => none
          | some (s, r) => some (d :: s, r)
      else
        match parseStringBody cs with
        | none => none
        | some (s, r) => some (c :: s, r) := by
  cases cs <;> rfl

theorem parseStringBody_shrinks :
    ∀ n l s r, List.length l ≤ n → parseStringBody l = some (s, r) →
      List.length r < List.length l := by
  intro n
  induction n with
  | zero =>
    intro l s r hl h
    cases l with
    | nil => simp [parseStringBody] at h
    | cons c cs => simp at hl
  | succ n ih =>
    intro l s r hl h
    cases l with
    | nil => simp [parseStringBody] at h
    | cons c cs =>
      simp only [List.length_cons, Nat.succ_le_succ_iff] at hl
      rw [parseStringBody_cons] at h
      by_cases hq : c = '"'
      · rw [if_pos hq] at h
        simp only [Option.some.injEq, Prod.mk.injEq] at h
        obtain ⟨h1, h2⟩ := h
        subst h2
        simp
      · by_cases hb : c = '\\'
        · rw [if_neg hq, if_pos hb] at h
          cases cs with
          | nil => simp at h
          | cons d cs2 =>
            cases hp : parseStringBody cs2 with
            | none => simp only [hp] at h; simp at h
            | some pr =>
              obtain ⟨s2, r2⟩ := pr
              simp only [hp, Option.some.injEq, Prod.mk.injEq] at h
              obtain ⟨h1, h2⟩ := h
              subst h2
              have hlen : List.length cs2 ≤ n := by simp at hl; omega
              have := ih cs2 s2 r2 hlen hp
              simp
              omega
        · rw [if_neg hq, if_neg hb] at h
          cases hp : parseStringBody cs with
          | none => simp only [hp] at h; simp at h
          | some pr =>
            obtain ⟨s2, r2⟩ := pr
            simp only [hp, Option.some.injEq, Prod.mk.injEq] at h
            obtain ⟨h1, h2⟩ := h
            subst h2
            have := ih cs s2 r2 hl hp
            simp
            omega

theorem parseStringBody_length {l s r} (h : parseStringBody l = some (s, r)) :
    List.length r < List.length l :=
  parseStringBody_shrinks (List.length l) l s r (Nat.le_refl _) h

/-- Decoding is a left inverse of escaping: the parser recovers the body and
leaves exactly what follows the closing quote. -/
theorem parseStringBody_escape (s : List Char) :
    ∀ rest, parseStringBody (escapeChars s ++ '"' :: rest) = some (s, rest) := by
  induction s with
  | nil =>
    intro rest
    simp [escapeChars, parseStringBody_cons]
  | cons c cs ih =>
    intro rest
    show parseStringBody (escChar c ++ escapeChars cs ++ '"' :: rest) = _
    by_cases hq : c = '"'
    · subst hq
      rw [show escChar '"' = ['\\', '"'] from rfl]
      simp only [List.cons_append, List.nil_append]
      rw [parseStringBody_cons, if_neg (by decide), if_pos rfl]
      simp only [ih rest]
    · by_cases hb : c = '\\'
      · subst hb
        rw [show escChar '\\' = ['\\', '\\'] from rfl]
        simp only [List.cons_append, List.nil_append]
        rw [parseStringBody_cons, if_neg (by decide), if_pos rfl]
        simp only [ih rest]
      · rw [show escChar c = [c] from by simp [escChar, hq, hb]]
        simp only [List.cons_append, List.nil_append]
        rw [parseStringBody_cons, if_neg hq, if_neg hb]
        simp only [ih rest]

/-- Parse the elements of a JSON array of strings after the opening
bracket: a closing bracket, or string literals separated by `","` or
`", "`, then the closing bracket ending the input.  The fuel argument
only bounds the recursion depth (one unit per array element); callers
pass one more than the length of the input, which always suffices. -/
def parseElems : Nat → List Char → Option (List (List Char))
  | 0, _ => none
  | _ + 1, [']'] => some []
  | fuel + 1, '"' :: cs =>
    (match parseStringBody cs with
    | some (s, [']']) => some [s]
    | some (s, ',' :: ' ' :: ds) =>
      match parseElems fuel ds with
      | some t => some (s :: t)
      | none => none
    | some (s, ',' :: ds) =>
      match parseElems fuel ds with
      | some t => some (s :: t)
      | none => none
    | _ => none)
  | _ + 1, _ => none

/-- Every array element costs at least one character of input, so the
element count never exceeds the character count of the dumped body. -/
theorem dumpElems_length_ge :
    ∀ l : List (List Char), List.length l ≤ List.length (dumpElems l) := by
  intro l
  induction l with
  | nil => simp [dumpElems]
  | cons s rest ih =>
    cases rest with
    | nil => simp [dumpElems, dumpStringChars]
    | cons t r2 =>
      show List.length (s :: t :: r2) ≤ List.length (dumpStringChars s ++ ',' :: ' ' :: dumpElems (t :: r2))
      simp only [List.length_append, List.length_cons, dumpStringChars] at *
      omega

/-- The array parser is a left inverse of the array printer, for any
sufficient fuel. -/
theorem parseElems_dump :
    ∀ (l : List (List Char)) fuel, List.length l < fuel →
      parseElems fuel (dumpElems l ++ [']']) = some l := by
  intro l
  induction l with
  | nil =>
    intro fuel hf
    cases fuel with
    | zero => omega
    | succ n => rfl
  | cons s rest ih =>
    intro fuel hf
    cases fuel with
    | zero => omega
    | succ n =>
      cases rest with
      | nil =>
        show parseElems (n + 1) (dumpStringChars s ++ [']']) = some [s]
        simp only [dumpStringChars, List.cons_append, List.append_assoc,
          List.singleton_append, List.nil_append]
        simp only [parseElems, parseStringBody_escape]
      | cons t r2 =>
        show parseElems (n + 1)
          ((dumpStringChars s ++ ',' :: ' ' :: dumpElems (t :: r2)) ++ [']']) = _
        have hn : List.length (t :: r2) < n := by
          simp only [List.length_cons] at hf ⊢
          omega
        simp only [dumpStringChars, List.cons_append, List.append_assoc,
          List.singleton_append, List.nil_append]
        simp only [parseElems, parseStringBody_escape, ih n hn]

/-- `json.loads` restricted to JSON arrays of strings: any document that is
not such an array is reported as a failure (the route treats a parse
failure and a non-list document alike: neither ever compares equal to an
incoming answer list, and the read-back path falls back to comma
splitting). -/
def jsonLoadsList (s : String) : Option (List String) :=
  match String.data s with
  | '[' :: rest => (parseElems (List.length rest + 1) rest).map (fun l => l.map String.mk)
  | _ => none

theorem stringMk_data (s : String) : String.mk (String.data s) = s := rfl

/-- Round trip of the modelled `json` codec on lists of strings. -/
theorem jsonLoadsList_dumps (xs : List String) :
    jsonLoadsList (jsonDumpsList xs) = some xs := by
  show (parseElems (List.length (dumpElems (xs.map String.data) ++ [']']) + 1)
      (dumpElems (xs.map String.data) ++ [']'])).map (fun l => l.map String.mk) = some xs
  rw [parseElems_dump (xs.map String.data)]
  · show Option.map (fun l => l.map String.mk) (some (xs.map String.data)) = some xs
    simp [List.map_map, Function.comp_def, stringMk_data]
  · have h1 := dumpElems_length_ge (xs.map String.data)
    simp only [List.length_append, List.length_map] at *
    omega

theorem jsonDumpsList_ne_empty (xs : List String) : jsonDumpsList xs ≠ "" := by
  intro h
  have := congrArg String.data h
  simp [jsonDumpsList] at this

/-- `_serialize_answer` of `src/routes/resultRoute.py` (lines 112-118):
`None` stays `None`, otherwise the list is dumped as JSON (for a list of
strings `json.dumps` never raises, so the `except` branch is dead). -/
def _serialize_answer (a : Option (List String)) : Option String :=
  a.map jsonDumpsList

/-- The legacy fallback decode path of `_deserialize_answer` (line 129):
split on commas, strip whitespace, drop empty parts. -/
def commaSplit (s : String) : List String :=
  ((s.split (fun c => c = ',')).map String.trim).filter (fun p => p != "")

/-- `_deserialize_answer` of `src/routes/resultRoute.py` (lines 121-130):
falsy input (`None` or the empty string) gives `[]`, a JSON array of
strings decodes to it, anything else takes the comma-split fallback. -/
def _deserialize_answer : Option String → List String
  | none => []
  | some s =>
    if s = "" then []
    else
      match jsonLoadsList s with
      | some xs => xs
      | none => commaSplit s

theorem deserialize_dumps (xs : List String) :
    _deserialize_answer (some (jsonDumpsList xs)) = xs := by
  rw [_deserialize_answer, if_neg (jsonDumpsList_ne_empty xs)]
  simp only [jsonLoadsList_dumps]

/-- A row of the `UserTestResults` table (`UserTestResult` model,
lines 26-37).  `taken_at` has no default in the schema, and the insert
statement of the submit path omits it, so it stays `NULL`. -/
structure ResultRow where
  id : Nat
  user_id : Int
  test_id : Int
  score : Option ℚ
  total_questions : Option Int
  correct_answers : Option Int
  points_earned : Option ℚ
  points_possible : Option ℚ
  taken_at : Option String
deriving Repr, DecidableEq

/-- A row of the `UserQuestionAnswers` table (`UserQuestionAnswer` model,
lines 40-49).  Both write paths store `is_correct` as `0/1` (never `NULL`)
and `partial_credit` with a `0.0` default, so these fields are total. -/
structure AnswerRow where
  id : Nat
  test_result_id : Nat
  question_id : Int
  user_answer : Option String
  is_correct : Bool
  partial_credit : ℚ
deriving Repr, DecidableEq

/-- The store: both tables in rowid (insertion) order, the autoincrement
counters, and the `Test` table of `testRoute.py` reduced to its row count
(`none` models the `except` path of `get_user_progress`, where the count
is unavailable). -/
structure DB where
  results : List ResultRow
  answers : List AnswerRow
  nextResultId : Nat
  nextAnswerId : Nat
  tests : Option Nat
deriving Repr, DecidableEq

/-- The `AnswerCreate` pydantic schema (lines 53-61): `user_answer`
defaults to `None`, `is_correct` to `False`, `partial_credit` to `0.0`;
`none` here stands both for an absent field and an explicit `null`, which
the write paths treat alike (`1 if a.is_correct else 0`,
`a.partial_credit or 0.0`). -/
structure AnswerCreate where
  question_id : Int
  user_answer : Option (List String) := none
  is_correct : Option Bool := some false
  partial_credit : Option ℚ := some 0
deriving Repr, DecidableEq

/-- The `ResultCreate` pydantic schema (lines 77-88). -/
structure ResultCreate where
  user_id : Int
  test_id : Int
  score : Option ℚ := none
  total_questions : Option Int := none
  correct_answers : Option Int := none
  points_earned : Option ℚ := some 0
  points_possible : Option ℚ := some 0
  answers : Option (List AnswerCreate) := some []
deriving Repr, DecidableEq

/-- The `ResultUpdate` pydantic schema (lines 91-97) under
`model_dump(exclude_unset=True)`: for a scalar field, the outer `Option`
records whether the request supplied the field at all and the inner one
its (possibly `null`) value.  For `answers`, an unset field and an
explicit `null` both skip the replacement, so one `Option` suffices. -/
structure ResultUpdate where
  score : Option (Option ℚ) := none
  total_questions : Option (Option Int) := none
  correct_answers : Option (Option Int) := none
  points_earned : Option (Option ℚ) := none
  points_possible : Option (Option ℚ) := none
  answers : Option (List AnswerCreate) := none
deriving Repr, DecidableEq

/-- The nested answer part of `ResultResponse` / `AnswerResponse`
(lines 70-74 and the dict literals of the route bodies). -/
structure AnswerResponse where
  id : Nat
  question_id : Int
  user_answer : List String
  is_correct : Bool
  partial_credit : ℚ
deriving Repr, DecidableEq

/-- The `ResultResponse` shape (lines 100-106). -/
structure ResultResponse where
  id : Nat
  user_id : Int
  test_id : Int
  score : Option ℚ
  total_questions : Option Int
  correct_answers : Option Int
  points_earned : Option ℚ
  points_possible : Option ℚ
  taken_at : Option String
  answers : List AnswerResponse
deriving Repr, DecidableEq

/-- The HTTP error conditions the result routes raise. -/
inductive ApiError where
  | notFound
  | forbidden
deriving Repr, DecidableEq

/-- All answers of one result, in table order (with fresh increasing ids
this is also `ORDER BY id` order, see `wellFormed`). -/
def answersFor (db : DB) (rid : Nat) : List AnswerRow :=
  db.answers.filter (fun a => a.test_result_id == rid)

/-- The first result row with the given id (`select ... .first()`). -/
def findResult (db : DB) (rid : Nat) : Option ResultRow :=
  db.results.find? (fun r => r.id == rid)

/-- The results of one (user, test) pair in table order. -/
def resultsForPair (db : DB) (uid tid : Int) : List ResultRow :=
  db.results.filter (fun r => r.user_id == uid && r.test_id == tid)

/-- `SELECT id FROM UserTestResults WHERE user_id = ? AND test_id = ?
ORDER BY id DESC LIMIT 1` (lines 173-177): on a table kept in id order,
the last matching row. -/
def latestResult (db : DB) (uid tid : Int) : Option ResultRow :=
  (resultsForPair db uid tid).getLast?

/-- One response row built from a stored answer row (the dict literals at
lines 219-231, 292-302, 399-408 all decode `user_answer` the same way). -/
def answerRespOf (a : AnswerRow) : AnswerResponse :=
  { id := a.id
    question_id := a.question_id
    user_answer := _deserialize_answer a.user_answer
    is_correct := a.is_correct
    partial_credit := a.partial_credit }

/-- Decoding of one stored `user_answer` during the duplicate check
(line 186, `json.loads(r[2]) if r[2] else []`): falsy text decodes to
`[]`; a failure (or a document that is not a list of strings, which can
never equal the incoming list) aborts the whole duplicate check. -/
def storedAnswerParse (o : Option String) : Option (List String) :=
  match o with
  | none => some []
  | some s => if s = "" then some [] else jsonLoadsList s

/-- The decoded stored answers of an existing result, or `none` when some
row fails to decode (the surrounding `try/except: pass` then skips the
duplicate check, lines 172-246). -/
def parseAllStored : List AnswerRow → Option (List (List String))
  | [] => some []
  | a :: rest =>
    match storedAnswerParse a.user_answer with
    | none => none
    | some x =>
      match parseAllStored rest with
      | none => none
      | some xs => some (x :: xs)

/-- The incoming comparison key (lines 188-190):
`[a.user_answer or [] for a in (payload.answers or [])]`. -/
def incomingAnswers (p : ResultCreate) : List (List String) :=
  (p.answers.getD []).map (fun a => a.user_answer.getD [])

/-- The duplicate check of the submit path (lines 171-191): the most
recent result of the pair, if its decoded answers equal the incoming
ones position by position. -/
def dedupHit (p : ResultCreate) (db : DB) : Option ResultRow :=
  match latestResult db p.user_id p.test_id with
  | none => none
  | some ex =>
    match parseAllStored (answersFor db ex.id) with
    | none => none
    | some l => if l = incomingAnswers p then some ex else none

/-- One inserted `UserQuestionAnswers` row (lines 263-274 of the submit
path; the update path at lines 511-523 builds the identical row):
`user_answer` is `json.dumps(...)` or `NULL`, `is_correct` is
`1 if a.is_correct else 0`, `partial_credit` is `a.partial_credit or
0.0`. -/
def mkAnswerRow (rid aid : Nat) (a : AnswerCreate) : AnswerRow :=
  { id := aid
    test_result_id := rid
    question_id := a.question_id
    user_answer := a.user_answer.map jsonDumpsList
    is_correct := a.is_correct.getD false
    partial_credit := a.partial_credit.getD 0 }

/-- The child rows of one submission, inserted in payload order with
consecutive autoincrement ids. -/
def mkAnswerRows (rid : Nat) : Nat → List AnswerCreate → List AnswerRow
  | _, [] => []
  | aid, a :: rest => mkAnswerRow rid aid a :: mkAnswerRows rid (aid + 1) rest

/-- The same child-row loop with an injected failure: `fails i = true`
models the INSERT of the i-th answer raising (constraint violation,
I/O error).  The transaction then never reaches `conn.commit()`
(line 276) and closing the connection rolls everything back. -/
def mkAnswerRowsF (fails : Nat → Bool) (rid : Nat) :
    Nat → Nat → List AnswerCreate → Option (List AnswerRow)
  | _, _, [] => some []
  | aid, i, a :: rest =>
    if fails i then none
    else
      match mkAnswerRowsF fails rid (aid + 1) (i + 1) rest with
      | none => none
      | some rows => some (mkAnswerRow rid aid a :: rows)

/-- The parent row written by the submit path (lines 249-260): `taken_at`
is not in the column list and stays `NULL`. -/
def mkResultRow (p : ResultCreate) (rid : Nat) : ResultRow :=
  { id := rid
    user_id := p.user_id
    test_id := p.test_id
    score := p.score
    total_questions := p.total_questions
    correct_answers := p.correct_answers
    points_earned := p.points_earned
    points_possible := p.points_possible
    taken_at := none }

/-- The store after the insert branch of the submit path commits. -/
def insertDB (p : ResultCreate) (db : DB) : DB :=
  { db with
    results := db.results ++ [mkResultRow p db.nextResultId]
    answers := db.answers ++ mkAnswerRows db.nextResultId db.nextAnswerId (p.answers.getD [])
    nextResultId := db.nextResultId + 1
    nextAnswerId := db.nextAnswerId + List.length (p.answers.getD []) }

/-- The response of the insert branch (lines 278-315): payload fields are
echoed, `taken_at` is `None`, and the answers are read back from the
store. -/
def insertResp (p : ResultCreate) (db : DB) : ResultResponse :=
  { id := db.nextResultId
    user_id := p.user_id
    test_id := p.test_id
    score := p.score
    total_questions := p.total_questions
    correct_answers := p.correct_answers
    points_earned := p.points_earned
    points_possible := p.points_possible
    taken_at := none
    answers := (answersFor (insertDB p db) db.nextResultId).map answerRespOf }

/-- The response of the duplicate branch (lines 192-244): the stored
parent row and its stored children, decoded. -/
def dedupResp (db : DB) (ex : ResultRow) : ResultResponse :=
  { id := ex.id
    user_id := ex.user_id
    test_id := ex.test_id
    score := ex.score
    total_questions := ex.total_questions
    correct_answers := ex.correct_answers
    points_earned := ex.points_earned
    points_possible := ex.points_possible
    taken_at := ex.taken_at
    answers := (answersFor db ex.id).map answerRespOf }

/-- `_create_result_sync` (POST /results, lines 162-320): the duplicate
branch returns the existing attempt and leaves the store unchanged; the
insert branch writes the parent row and all child rows and commits. -/
def submit (p : ResultCreate) (db : DB) : ResultResponse × DB :=
  match dedupHit p db with
  | some ex => (dedupResp db ex, db)
  | none => (insertResp p db, insertDB p db)

/-- `_create_result_sync` with an injected child-insert failure: when any
child INSERT raises, the transaction never commits and the caller's
visible store is unchanged (`none`). -/
def submitF (p : ResultCreate) (fails : Nat → Bool) (db : DB) :
    Option (ResultResponse × DB) :=
  match dedupHit p db with
  | some ex => some (dedupResp db ex, db)
  | none =>
    match mkAnswerRowsF fails db.nextResultId db.nextAnswerId 0 (p.answers.getD []) with
    | none => none
    | some _ => some (insertResp p db, insertDB p db)

/-- The response `get_result` renders for a found row (lines 410-421):
the row's scalar fields plus its decoded answers. -/
def resultRespOf (db : DB) (rid : Nat) (r : ResultRow) : ResultResponse :=
  { id := r.id
    user_id := r.user_id
    test_id := r.test_id
    score := r.score
    total_questions := r.total_questions
    correct_answers := r.correct_answers
    points_earned := r.points_earned
    points_possible := r.points_possible
    taken_at := r.taken_at
    answers := (answersFor db rid).map answerRespOf }

/-- `get_result` (GET /results/{id}, lines 386-421). -/
def get_result (rid : Nat) (db : DB) : Except ApiError ResultResponse :=
  match findResult db rid with
  | none => Except.error ApiError.notFound
  | some r => Except.ok (resultRespOf db rid r)

/-- The scalar part of `update_result` (lines 490-493): only supplied
fields are overwritten (a supplied explicit `null` overwrites with
`NULL`). -/
def applyUpd (r : ResultRow) (p : ResultUpdate) : ResultRow :=
  { r with
    score := p.score.getD r.score
    total_questions := p.total_questions.getD r.total_questions
    correct_answers := p.correct_answers.getD r.correct_answers
    points_earned := p.points_earned.getD r.points_earned
    points_possible := p.points_possible.getD r.points_possible }

/-- The store after the scalar phase of `update_result` (lines 490-496,
committed at line 495): the found row's scalar fields are patched in
place (the row is fetched by primary key, so exactly the rows with that
id change). -/
def patchedDB (rid : Nat) (p : ResultUpdate) (db : DB) : DB :=
  { db with results := db.results.map (fun x => if x.id == rid then applyUpd x p else x) }

/-- The store after the child-deletion phase of `update_result` (lines
500-508, committed at line 508): every answer row of the result is
deleted. -/
def clearedDB (rid : Nat) (db : DB) : DB :=
  { db with answers := db.answers.filter (fun a => a.test_result_id != rid) }

/-- What the PUT endpoint hands back beside the final store: a rendered
result, an HTTP error the route raises itself, or an unhandled exception
(HTTP 500 from the framework). -/
inductive UpdateOut where
  | ok (resp : ResultResponse)
  | apiError (e : ApiError)
  | crashed
deriving Repr, DecidableEq

/-- `update_result` (PUT /results/{id}, lines 479-526): 404 when absent;
scalar fields patched and committed; when `answers` is supplied as a
list, all child rows are deleted and committed (line 508), and then the
insert loop runs.  This repository uses pydantic v2, so
`payload.model_dump(exclude_unset=True)` (line 490) has already turned
every nested `AnswerCreate` into a plain dict; the first loop iteration
evaluates `a.user_answer` (line 512) on that dict and raises
`AttributeError`, which escapes the route as a server error.  Hence a
non-empty list crashes after the deletion commit — the store keeps the
patched scalars and the emptied child set, and nothing is inserted — and
only the empty list completes the replacement.  On completion the result
is returned as `get_result` renders it. -/
def update_result (rid : Nat) (p : ResultUpdate) (db : DB) : DB × UpdateOut :=
  match findResult db rid with
  | none => (db, UpdateOut.apiError ApiError.notFound)
  | some _ =>
    match p.answers with
    | none =>
      (patchedDB rid p db,
        match get_result rid (patchedDB rid p db) with
        | Except.ok resp => UpdateOut.ok resp
        | Except.error e => UpdateOut.apiError e)
    | some [] =>
      (clearedDB rid (patchedDB rid p db),
        match get_result rid (clearedDB rid (patchedDB rid p db)) with
        | Except.ok resp => UpdateOut.ok resp
        | Except.error e => UpdateOut.apiError e)
    | some (_ :: _) => (clearedDB rid (patchedDB rid p db), UpdateOut.crashed)

/-- `delete_result` (DELETE /results/{id}, lines 529-548): 404 when
absent, otherwise the answers of the result are deleted and then the
result row itself; errors are raised before any write, so they leave the
store untouched. -/
def delete_result (rid : Nat) (db : DB) : DB × Option ApiError :=
  match findResult db rid with
  | none => (db, some ApiError.notFound)
  | some _ =>
    ({ db with
        answers := db.answers.filter (fun a => a.test_result_id != rid)
        results := db.results.filter (fun r => r.id != rid) },
      none)

/-- `delete_result_for_user` (DELETE /results/user/{user_id}/{result_id},
lines 602-629): as `delete_result`, but 403 before any write when the
stored `user_id` differs from the path's. -/
def delete_result_for_user (u : Int) (rid : Nat) (db : DB) : DB × Option ApiError :=
  match findResult db rid with
  | none => (db, some ApiError.notFound)
  | some r =>
    if r.user_id != u then (db, some ApiError.forbidden)
    else
      ({ db with
          answers := db.answers.filter (fun a => a.test_result_id != rid)
          results := db.results.filter (fun x => x.id != rid) },
        none)

/-- The response of `GET /results/progress/{user_id}`. -/
structure ProgressOut where
  user_id : Int
  tests_taken : Nat
  total_tests : Nat
  percent : ℚ
deriving Repr, DecidableEq

/-- `get_user_progress` (lines 551-577): distinct `test_id` count of the
user's results (a Python set), the `Test` row count (0 when unavailable),
and their ratio as a percentage (0.0 on zero total). -/
def get_user_progress (db : DB) (u : Int) : ProgressOut :=
  let rows := db.results.filter (fun r => r.user_id == u)
  let taken := (rows.map (fun r => r.test_id)).toFinset.card
  let total := db.tests.getD 0
  { user_id := u
    tests_taken := taken
    total_tests := total
    percent := if total = 0 then 0 else (taken : ℚ) / (total : ℚ) * 100 }

/-- The response of `GET /results/user/result/{user_id}/mean`. -/
structure MeanOut where
  user_id : Int
  mean_score : Option ℚ
  count : Nat
deriving Repr, DecidableEq

/-- `get_user_mean_score` (lines 580-599): SQL `avg` ignores `NULL`
scores and is `NULL` on an empty set; `count(id)` counts all of the
user's rows. -/
def get_user_mean_score (db : DB) (u : Int) : MeanOut :=
  let rows := db.results.filter (fun r => r.user_id == u)
  let scores := rows.filterMap (fun r => r.score)
  { user_id := u
    mean_score :=
      if List.length scores = 0 then none
      else some (scores.sum / (List.length scores : ℚ))
    count := List.length rows }

/-- No stored answer row points at a missing parent row. -/
def noOrphans (db : DB) : Prop :=
  ∀ a ∈ db.answers, ∃ r ∈ db.results, r.id = a.test_result_id

/-- Reachable-store invariant: ids grow with table order (so `ORDER BY
id` is table order), the autoincrement counters dominate all stored ids,
and no answer row is orphaned. -/
def wellFormed (db : DB) : Prop :=
  List.Pairwise (fun a b => a.id < b.id) db.results ∧
  List.Pairwise (fun a b => a.id < b.id) db.answers ∧
  (∀ r ∈ db.results, r.id < db.nextResultId) ∧
  (∀ a ∈ db.answers, a.id < db.nextAnswerId) ∧
  noOrphans db

instance (db : DB) : Decidable (noOrphans db) := by
  unfold noOrphans
  infer_instance

instance (db : DB) : Decidable (wellFormed db) := by
  unfold wellFormed
  infer_instance

deriving instance DecidableEq for Except

theorem storedAnswerParse_mk (o : Option (List String)) :
    storedAnswerParse (o.map jsonDumpsList) = some (o.getD []) := by
  cases o with
  | none => rfl
  | some xs =>
    show storedAnswerParse (some (jsonDumpsList xs)) = some xs
    rw [storedAnswerParse, if_neg (jsonDumpsList_ne_empty xs), jsonLoadsList_dumps]

theorem deserialize_mk (o : Option (List String)) :
    _deserialize_answer (o.map jsonDumpsList) = o.getD [] := by
  cases o with
  | none => rfl
  | some xs => exact deserialize_dumps xs

theorem mkAnswerRows_tri (rid : Nat) :
    ∀ l aid, ∀ a ∈ mkAnswerRows rid aid l, a.test_result_id = rid := by
  intro l
  induction l with
  | nil => intro aid a ha; simp [mkAnswerRows] at ha
  | cons x rest ih =>
    intro aid a ha
    rw [mkAnswerRows] at ha
    cases ha with
    | head => rfl
    | tail b h => exact ih (aid + 1) a h

theorem mkAnswerRows_filter_self (rid : Nat) :
    ∀ l aid, (mkAnswerRows rid aid l).filter (fun a => a.test_result_id == rid)
      = mkAnswerRows rid aid l := by
  intro l
  induction l with
  | nil => intro aid; rfl
  | cons x rest ih =>
    intro aid
    rw [mkAnswerRows, List.filter_cons]
    simp only [mkAnswerRow, beq_self_eq_true, if_pos]
    rw [ih (aid + 1)]

theorem mkAnswerRows_length (rid : Nat) :
    ∀ l aid, List.length (mkAnswerRows rid aid l) = List.length l := by
  intro l
  induction l with
  | nil => intro aid; rfl
  | cons x rest ih =>
    intro aid
    rw [mkAnswerRows]
    simp only [List.length_cons, ih (aid + 1)]

theorem mkAnswerRows_map_qid (rid : Nat) :
    ∀ l aid, (mkAnswerRows rid aid l).map (fun a => a.question_id)
      = l.map (fun a => a.question_id) := by
  intro l
  induction l with
  | nil => intro aid; rfl
  | cons x rest ih =>
    intro aid
    rw [mkAnswerRows]
    simp only [List.map_cons, ih (aid + 1)]
    rfl

theorem mkAnswerRows_map_answers (rid : Nat) :
    ∀ l aid, (mkAnswerRows rid aid l).map (fun a => _deserialize_answer a.user_answer)
      = l.map (fun a => a.user_answer.getD []) := by
  intro l
  induction l with
  | nil => intro aid; rfl
  | cons x rest ih =>
    intro aid
    rw [mkAnswerRows]
    simp only [List.map_cons, ih (aid + 1)]
    rw [show (mkAnswerRow rid aid x).user_answer = x.user_answer.map jsonDumpsList from rfl]
    rw [deserialize_mk]

theorem parseAllStored_mk (rid : Nat) :
    ∀ l aid, parseAllStored (mkAnswerRows rid aid l)
      = some (l.map (fun a => a.user_answer.getD [])) := by
  intro l
  induction l with
  | nil => intro aid; rfl
  | cons x rest ih =>
    intro aid
    rw [mkAnswerRows, parseAllStored]
    rw [show (mkAnswerRow rid aid x).user_answer = x.user_answer.map jsonDumpsList from rfl]
    rw [storedAnswerParse_mk, ih (aid + 1)]
    rfl

theorem filter_false_of_all {α : Type} (p : α → Bool) :
    ∀ l : List α, (∀ x ∈ l, p x = false) → l.filter p = [] := by
  intro l h
  rw [List.filter_eq_nil_iff]
  intro a ha
  rw [h a ha]
  simp

/-- In a well-formed store no stored answer references the next (still
unused) result id. -/
theorem wf_no_tri_next {db : DB} (wf : wellFormed db) :
    ∀ a ∈ db.answers, (a.test_result_id == db.nextResultId) = false := by
  intro a ha
  obtain ⟨-, -, hrid, -, horph⟩ := wf
  obtain ⟨r, hr, hid⟩ := horph a ha
  have := hrid r hr
  simp only [beq_eq_false_iff_ne, ne_eq]
  omega

/-- The answers visible for the fresh result after an insert are exactly
the rows the insert wrote, in order. -/
theorem answersFor_insertDB {db : DB} (p : ResultCreate) (wf : wellFormed db) :
    answersFor (insertDB p db) db.nextResultId
      = mkAnswerRows db.nextResultId db.nextAnswerId (p.answers.getD []) := by
  show (db.answers ++ mkAnswerRows db.nextResultId db.nextAnswerId (p.answers.getD [])).filter
      (fun a => a.test_result_id == db.nextResultId) = _
  rw [List.filter_append]
  rw [filter_false_of_all _ db.answers (wf_no_tri_next wf)]
  rw [mkAnswerRows_filter_self]
  rfl

/-- After an insert, the fresh parent row is the latest row of its
(user, test) pair. -/
theorem latestResult_insertDB {db : DB} (p : ResultCreate) :
    latestResult (insertDB p db) p.user_id p.test_id
      = some (mkResultRow p db.nextResultId) := by
  show ((db.results ++ [mkResultRow p db.nextResultId]).filter
      (fun r => r.user_id == p.user_id && r.test_id == p.test_id)).getLast? = _
  rw [List.filter_append]
  rw [show List.filter (fun r => r.user_id == p.user_id && r.test_id == p.test_id)
      [mkResultRow p db.nextResultId] = [mkResultRow p db.nextResultId] from by
    simp [mkResultRow]]
  rw [List.getLast?_concat]

/-- Resubmitting the payload right after its own insert hits the
duplicate check. -/
theorem dedupHit_insertDB {db : DB} (p : ResultCreate) (wf : wellFormed db) :
    dedupHit p (insertDB p db) = some (mkResultRow p db.nextResultId) := by
  rw [dedupHit, latestResult_insertDB]
  show (match parseAllStored (answersFor (insertDB p db) db.nextResultId) with
    | none => none
    | some l => if l = incomingAnswers p then some (mkResultRow p db.nextResultId) else none)
      = some (mkResultRow p db.nextResultId)
  rw [answersFor_insertDB p wf, parseAllStored_mk]
  show (if (p.answers.getD []).map (fun a => a.user_answer.getD []) = incomingAnswers p
      then some (mkResultRow p db.nextResultId) else none)
      = some (mkResultRow p db.nextResultId)
  simp [incomingAnswers]

theorem findResult_insertDB {db : DB} (p : ResultCreate) (wf : wellFormed db) :
    findResult (insertDB p db) db.nextResultId
      = some (mkResultRow p db.nextResultId) := by
  show (db.results ++ [mkResultRow p db.nextResultId]).find?
      (fun r => r.id == db.nextResultId) = _
  rw [List.find?_append]
  rw [show db.results.find? (fun r => r.id == db.nextResultId) = none from by
    rw [List.find?_eq_none]
    intro r hr
    have := wf.2.2.1 r hr
    simp only [beq_iff_eq]
    omega]
  rw [Option.none_or, List.find?_cons]
  simp [mkResultRow]

/-- In a well-formed store the next result id names no stored row. -/
theorem findResult_next_none {db : DB} (wf : wellFormed db) :
    findResult db db.nextResultId = none := by
  rw [findResult, List.find?_eq_none]
  intro r hr
  have := wf.2.2.1 r hr
  simp only [beq_iff_eq]
  omega

/-- In a well-formed store the next result id owns no answer rows. -/
theorem answersFor_next_nil {db : DB} (wf : wellFormed db) :
    answersFor db db.nextResultId = [] :=
  filter_false_of_all _ db.answers (wf_no_tri_next wf)

theorem mkAnswerRowsF_all_ok (fails : Nat → Bool) (rid : Nat) :
    ∀ l aid i, (∀ j, fails j = false) →
      mkAnswerRowsF fails rid aid i l = some (mkAnswerRows rid aid l) := by
  intro l
  induction l with
  | nil => intro aid i h; rfl
  | cons x rest ih =>
    intro aid i h
    rw [mkAnswerRowsF, h i, if_neg (by simp), ih (aid + 1) (i + 1) h]
    rfl

theorem mkAnswerRowsF_some (fails : Nat → Bool) (rid : Nat) :
    ∀ l aid i rows, mkAnswerRowsF fails rid aid i l = some rows →
      rows = mkAnswerRows rid aid l := by
  intro l
  induction l with
  | nil =>
    intro aid i rows h
    rw [mkAnswerRowsF] at h
    exact (Option.some.inj h).symm
  | cons x rest ih =>
    intro aid i rows h
    rw [mkAnswerRowsF] at h
    by_cases hf : fails i
    · rw [if_pos hf] at h; exact absurd h (by simp)
    · rw [if_neg hf] at h
      cases hm : mkAnswerRowsF fails rid (aid + 1) (i + 1) rest with
      | none => rw [hm] at h; exact absurd h (by simp)
      | some rows2 =>
        rw [hm] at h
        have := ih (aid + 1) (i + 1) rows2 hm
        rw [mkAnswerRows, ← this]
        exact (Option.some.inj h).symm

theorem find?_map_pres {α : Type} (g : α → α) (p : α → Bool)
    (hp : ∀ x, p (g x) = p x) :
    ∀ (l : List α) (r : α),
      List.find? p l = some r → List.find? p (l.map g) = some (g r) := by
  intro l
  induction l with
  | nil => intro r h; simp [List.find?] at h
  | cons x rest ih =>
    intro r h
    rw [List.map_cons, List.find?_cons]
    rw [List.find?_cons] at h
    cases hx : p x with
    | true =>
      rw [hx] at h
      rw [hp x, hx]
      rw [Option.some.inj h]
    | false =>
      rw [hx] at h
      rw [hp x, hx]
      exact ih r h

theorem get_result_ok {db : DB} {rid : Nat} {r : ResultRow}
    (h : findResult db rid = some r) :
    get_result rid db = Except.ok (resultRespOf db rid r) := by
  rw [get_result, h]

/-- Sample data for the witnesses: an empty store with five tests, a
first submission answering question 1 with `["A"]`, a differing one with
`["B"]`, and the store after the first submission. -/
def db0 : DB :=
  { results := [], answers := [], nextResultId := 1, nextAnswerId := 1, tests := some 5 }

def pA : ResultCreate :=
  { user_id := 1, test_id := 1
    answers := some [{ question_id := 1, user_answer := some ["A"] }] }

def pB : ResultCreate :=
  { user_id := 1, test_id := 1
    answers := some [{ question_id := 1, user_answer := some ["B"] }] }

def dbA : DB := (submit pA db0).2

def rowA : ResultRow := mkResultRow pA 1

/-- A store with two scored attempts of user 1 on distinct tests, for the
aggregation witness. -/
def dbM : DB :=
  { results :=
      [{ id := 1, user_id := 1, test_id := 1, score := some (1/2)
         total_questions := none, correct_answers := none
         points_earned := none, points_possible := none, taken_at := none },
       { id := 2, user_id := 1, test_id := 2, score := some (9/10)
         total_questions := none, correct_answers := none
         points_earned := none, points_possible := none, taken_at := none }]
    answers := [], nextResultId := 3, nextAnswerId := 1, tests := some 5 }

/-- C10.  Answer-serialization round trip: serializing any list of
strings (empty, commas, whitespace, quotes, backslashes included) with
`_serialize_answer` and reading it back with `_deserialize_answer`
returns exactly the original sequence, and `_deserialize_answer` is total
with `None` decoding to the empty list. -/
theorem c10_answer_serialization_roundtrip :
    ∀ xs : List String,
      _deserialize_answer (_serialize_answer (some xs)) = xs ∧
      _deserialize_answer (_serialize_answer none) = [] ∧
      _deserialize_answer none = [] := by
  intro xs
  exact ⟨deserialize_dumps xs, rfl, rfl⟩

/-- C1.  Idempotent resubmission: when the most recent stored attempt of
the submitted (user, test) pair decodes to exactly the incoming answer
sequences, submit returns that attempt's id and stored children and
leaves the store unchanged; in particular submitting the same payload
twice in a row yields the same id both times and the second call changes
nothing. -/
theorem c1_idempotent_resubmission :
    (∀ (db : DB) (p : ResultCreate) (ex : ResultRow) (l : List (List String)),
      latestResult db p.user_id p.test_id = some ex →
      parseAllStored (answersFor db ex.id) = some l →
      l = incomingAnswers p →
      (submit p db).1.id = ex.id ∧
      (submit p db).1.answers = (answersFor db ex.id).map answerRespOf ∧
      (submit p db).2 = db) ∧
    (∀ (db : DB) (p : ResultCreate), wellFormed db →
      (submit p (submit p db).2).1.id = (submit p db).1.id ∧
      (submit p (submit p db).2).2 = (submit p db).2) := by
  constructor
  · intro db p ex l hlatest hparse heq
    have hd : dedupHit p db = some ex := by
      rw [dedupHit, hlatest]
      show (match parseAllStored (answersFor db ex.id) with
        | none => none
        | some l2 => if l2 = incomingAnswers p then some ex else none) = some ex
      rw [hparse]
      show (if l = incomingAnswers p then some ex else none) = some ex
      rw [if_pos heq]
    rw [submit, hd]
    exact ⟨rfl, rfl, rfl⟩
  · intro db p wf
    cases hd : dedupHit p db with
    | some ex =>
      have h1 : submit p db = (dedupResp db ex, db) := by rw [submit, hd]
      show (submit p (submit p db).2).1.id = (submit p db).1.id ∧
        (submit p (submit p db).2).2 = (submit p db).2
      rw [h1]
      show (submit p db).1.id = (dedupResp db ex).id ∧ (submit p db).2 = db
      rw [h1]
      exact ⟨rfl, rfl⟩
    | none =>
      have h1 : submit p db = (insertResp p db, insertDB p db) := by rw [submit, hd]
      have h3 : submit p (insertDB p db)
          = (dedupResp (insertDB p db) (mkResultRow p db.nextResultId), insertDB p db) := by
        rw [submit, dedupHit_insertDB p wf]
      rw [h1]
      show (submit p (insertDB p db)).1.id = (insertResp p db).id ∧
        (submit p (insertDB p db)).2 = insertDB p db
      rw [h3]
      exact ⟨rfl, rfl⟩

theorem c1_idempotent_resubmission_witness :
    ((submit pA dbA).1.id = rowA.id ∧
     (submit pA dbA).1.answers = (answersFor dbA rowA.id).map answerRespOf ∧
     (submit pA dbA).2 = dbA) ∧
    ((submit pA (submit pA db0).2).1.id = (submit pA db0).1.id ∧
     (submit pA (submit pA db0).2).2 = (submit pA db0).2) :=
  ⟨c1_idempotent_resubmission.1 dbA pA rowA [["A"]]
      (by decide) (by decide) (by decide),
    c1_idempotent_resubmission.2 db0 pA (by decide)⟩

/-- C2.  Distinguishing resubmission: when the most recent stored attempt
of the pair decodes to answer sequences different from the incoming ones
(in any position or in length), submit inserts a new parent row under a
fresh id distinct from every stored id, together with one child row per
incoming entry, in order. -/
theorem c2_distinguishing_resubmission :
    ∀ (db : DB) (p : ResultCreate) (ex : ResultRow) (l : List (List String)),
      wellFormed db →
      latestResult db p.user_id p.test_id = some ex →
      parseAllStored (answersFor db ex.id) = some l →
      l ≠ incomingAnswers p →
      (submit p db).1.id = db.nextResultId ∧
      (submit p db).1.id ∉ db.results.map (fun r => r.id) ∧
      (submit p db).2.results = db.results ++ [mkResultRow p db.nextResultId] ∧
      answersFor (submit p db).2 (submit p db).1.id
        = mkAnswerRows db.nextResultId db.nextAnswerId (p.answers.getD []) ∧
      List.length (answersFor (submit p db).2 (submit p db).1.id)
        = List.length (p.answers.getD []) := by
  intro db p ex l wf hlatest hparse hne
  have hd : dedupHit p db = none := by
    rw [dedupHit, hlatest]
    show (match parseAllStored (answersFor db ex.id) with
      | none => none
      | some l2 => if l2 = incomingAnswers p then some ex else none) = none
    rw [hparse]
    show (if l = incomingAnswers p then some ex else none) = none
    rw [if_neg hne]
  have h1 : submit p db = (insertResp p db, insertDB p db) := by rw [submit, hd]
  rw [h1]
  refine ⟨rfl, ?_, rfl, ?_, ?_⟩
  · intro hmem
    rw [List.mem_map] at hmem
    obtain ⟨r, hr, hid⟩ := hmem
    have := wf.2.2.1 r hr
    show False
    have hid2 : r.id = db.nextResultId := hid
    omega
  · exact answersFor_insertDB p wf
  · rw [show answersFor (insertResp p db, insertDB p db).2 (insertResp p db).id
        = answersFor (insertDB p db) db.nextResultId from rfl]
    rw [answersFor_insertDB p wf, mkAnswerRows_length]

theorem c2_distinguishing_resubmission_witness :
    (submit pB dbA).1.id = dbA.nextResultId ∧
    (submit pB dbA).1.id ∉ dbA.results.map (fun r => r.id) ∧
    (submit pB dbA).2.results = dbA.results ++ [mkResultRow pB dbA.nextResultId] ∧
    answersFor (submit pB dbA).2 (submit pB dbA).1.id
      = mkAnswerRows dbA.nextResultId dbA.nextAnswerId (pB.answers.getD []) ∧
    List.length (answersFor (submit pB dbA).2 (submit pB dbA).1.id)
      = List.length (pB.answers.getD []) :=
  c2_distinguishing_resubmission dbA pB rowA [["A"]]
    (by decide) (by decide) (by decide) (by decide)

/-- C3.  Submission atomicity: with a failure injected into any child-row
insert, the transaction never commits, so the caller's store is the
original one, in which the would-be id has neither a parent row nor any
child row; when the call does return a store, it is either unchanged (the
duplicate case) or holds the parent row together with every child row of
the payload. -/
theorem c3_submission_atomicity :
    ∀ (db : DB) (p : ResultCreate) (fails : Nat → Bool), wellFormed db →
      (submitF p fails db = none →
        findResult db db.nextResultId = none ∧
        answersFor db db.nextResultId = []) ∧
      (∀ resp db2, submitF p fails db = some (resp, db2) →
        db2 = db ∨
          (findResult db2 resp.id = some (mkResultRow p db.nextResultId) ∧
           answersFor db2 resp.id
             = mkAnswerRows db.nextResultId db.nextAnswerId (p.answers.getD []) ∧
           List.length (answersFor db2 resp.id) = List.length (p.answers.getD []))) := by
  intro db p fails wf
  constructor
  · intro _
    exact ⟨findResult_next_none wf, answersFor_next_nil wf⟩
  · intro resp db2 h
    cases hd : dedupHit p db with
    | some ex =>
      rw [submitF, hd] at h
      have h2 := Option.some.inj h
      left
      exact ((Prod.mk.injEq .. ).mp h2).2.symm
    | none =>
      rw [submitF, hd] at h
      cases hm : mkAnswerRowsF fails db.nextResultId db.nextAnswerId 0 (p.answers.getD []) with
      | none => simp only [hm] at h; exact absurd h (by simp)
      | some rows =>
        simp only [hm, Option.some.injEq] at h
        obtain ⟨hresp, hdb2⟩ := (Prod.mk.injEq ..).mp h
        right
        rw [← hdb2, ← hresp]
        refine ⟨findResult_insertDB p wf, ?_, ?_⟩
        · exact answersFor_insertDB p wf
        · rw [show answersFor (insertDB p db) (insertResp p db).id
              = answersFor (insertDB p db) db.nextResultId from rfl]
          rw [answersFor_insertDB p wf, mkAnswerRows_length]

theorem c3_submission_atomicity_witness :
    submitF pA (fun _ => true) db0 = none ∧
    findResult db0 db0.nextResultId = none ∧
    answersFor db0 db0.nextResultId = [] :=
  ⟨by decide,
    (c3_submission_atomicity db0 pA (fun _ => true) (by decide)).1 (by decide)⟩

/-- C4.  Order preservation: when a submission inserts (no duplicate is
detected), the stored child rows carry the payload's question ids and
answer lists in exactly the input order, and fetching the fresh result
returns its answers in that same order. -/
theorem c4_order_preservation :
    ∀ (db : DB) (p : ResultCreate), wellFormed db → dedupHit p db = none →
      (answersFor (submit p db).2 (submit p db).1.id).map (fun a => a.question_id)
        = (p.answers.getD []).map (fun a => a.question_id) ∧
      (answersFor (submit p db).2 (submit p db).1.id).map
          (fun a => _deserialize_answer a.user_answer)
        = (p.answers.getD []).map (fun a => a.user_answer.getD []) ∧
      (get_result (submit p db).1.id (submit p db).2).map
          (fun o => o.answers.map (fun a => a.question_id))
        = Except.ok ((p.answers.getD []).map (fun a => a.question_id)) := by
  intro db p wf hd
  have h1 : submit p db = (insertResp p db, insertDB p db) := by rw [submit, hd]
  rw [h1]
  have hans : answersFor (insertResp p db, insertDB p db).2 (insertResp p db).id
      = mkAnswerRows db.nextResultId db.nextAnswerId (p.answers.getD []) := by
    rw [show answersFor (insertResp p db, insertDB p db).2 (insertResp p db).id
        = answersFor (insertDB p db) db.nextResultId from rfl]
    exact answersFor_insertDB p wf
  refine ⟨?_, ?_, ?_⟩
  · rw [hans, mkAnswerRows_map_qid]
  · rw [hans, mkAnswerRows_map_answers]
  · rw [show get_result (insertResp p db, insertDB p db).1.id
          (insertResp p db, insertDB p db).2
        = get_result db.nextResultId (insertDB p db) from rfl]
    rw [get_result_ok (findResult_insertDB p wf)]
    show Except.ok (((answersFor (insertDB p db) db.nextResultId).map answerRespOf).map
        (fun a => a.question_id)) = _
    rw [answersFor_insertDB p wf]
    rw [List.map_map]
    rw [show ((fun a : AnswerResponse => a.question_id) ∘ answerRespOf)
        = fun a : AnswerRow => a.question_id from rfl]
    rw [mkAnswerRows_map_qid]

theorem c4_order_preservation_witness :
    (answersFor (submit pA db0).2 (submit pA db0).1.id).map (fun a => a.question_id)
      = (pA.answers.getD []).map (fun a => a.question_id) ∧
    (answersFor (submit pA db0).2 (submit pA db0).1.id).map
        (fun a => _deserialize_answer a.user_answer)
      = (pA.answers.getD []).map (fun a => a.user_answer.getD []) ∧
    (get_result (submit pA db0).1.id (submit pA db0).2).map
        (fun o => o.answers.map (fun a => a.question_id))
      = Except.ok ((pA.answers.getD []).map (fun a => a.question_id)) :=
  c4_order_preservation db0 pA (by decide) (by decide)

theorem applyUpd_id (r : ResultRow) (p : ResultUpdate) : (applyUpd r p).id = r.id := rfl

theorem upd_pred (rid : Nat) (p : ResultUpdate) :
    ∀ x : ResultRow, ((if x.id == rid then applyUpd x p else x).id == rid) = (x.id == rid) := by
  intro x
  by_cases hx : x.id == rid
  · rw [if_pos hx, applyUpd_id]
  · rw [if_neg hx]

/-- After the scalar phase of an update, the row is found again with its
scalar fields patched. -/
theorem findResult_patchedDB {db : DB} {rid : Nat} {r : ResultRow} (p : ResultUpdate)
    (hfind : findResult db rid = some r) :
    findResult (patchedDB rid p db) rid = some (applyUpd r p) := by
  have hmap := find?_map_pres (fun x => if x.id == rid then applyUpd x p else x)
    (fun x => x.id == rid) (upd_pred rid p) db.results r hfind
  simp only [List.find?_some hfind, if_true] at hmap
  exact hmap

/-- After the child-deletion commit of an update, the result has no
children. -/
theorem answersFor_clearedDB (db : DB) (rid : Nat) :
    answersFor (clearedDB rid db) rid = [] := by
  apply filter_false_of_all
  intro a ha
  have h2 := (List.mem_filter.mp ha).2
  simp only [bne_iff_ne, ne_eq] at h2
  simp [h2]

/-- The final store of an update call on an existing row: scalars
patched, and the child set of the result emptied exactly when a list was
supplied (for a non-empty list the insert loop crashes after the
deletion commit, so the deletion is all that remains of it). -/
theorem update_result_fst {db : DB} {rid : Nat} {r : ResultRow} (p : ResultUpdate)
    (hfind : findResult db rid = some r) :
    (update_result rid p db).1
      = match p.answers with
        | none => patchedDB rid p db
        | some _ => clearedDB rid (patchedDB rid p db) := by
  rw [update_result, hfind]
  cases hpa : p.answers with
  | none => rfl
  | some l =>
    cases l with
    | nil => rfl
    | cons a rest => rfl

/-- C5 (code bug).  Replace-on-update is the code's stated intent (the
comment at line 498, and spec section 4) but holds only for the empty
list: with a non-empty answers list the endpoint deletes and commits all
current children of the result and then raises `AttributeError` before
inserting anything, because pydantic v2's `model_dump` already turned
the answer models into dicts (see `update_result`).  This theorem
evaluates the model at the failing input: a result holding one answer,
updated with a one-element list, ends in a server error with zero
children instead of one. -/
theorem c5_replace_on_update_bug :
    (update_result 1
        { answers := some [{ question_id := 1, user_answer := some ["B"] }] } dbA).2
      = UpdateOut.crashed ∧
    List.length (answersFor dbA 1) = 1 ∧
    answersFor (update_result 1
        { answers := some [{ question_id := 1, user_answer := some ["B"] }] } dbA).1 1
      = [] ∧
    List.length [({ question_id := 1, user_answer := some ["B"] } : AnswerCreate)]
      = 1 := by
  decide

/-- C8.  Partial-update frame: for every update call on an existing
result, the final store — whatever the outcome — patches exactly the
target row, where every scalar field the request did not supply keeps
its previous value and `user_id`, `test_id`, `taken_at` are never
touched; rows with other ids survive unchanged; and when no answers list
is supplied the child set of every result keeps its previous value. -/
theorem c8_partial_update_frame :
    ∀ (db : DB) (rid : Nat) (p : ResultUpdate) (r : ResultRow),
      findResult db rid = some r →
      findResult (update_result rid p db).1 rid = some (applyUpd r p) ∧
      (p.score = none → (applyUpd r p).score = r.score) ∧
      (p.total_questions = none → (applyUpd r p).total_questions = r.total_questions) ∧
      (p.correct_answers = none → (applyUpd r p).correct_answers = r.correct_answers) ∧
      (p.points_earned = none → (applyUpd r p).points_earned = r.points_earned) ∧
      (p.points_possible = none → (applyUpd r p).points_possible = r.points_possible) ∧
      (applyUpd r p).user_id = r.user_id ∧
      (applyUpd r p).test_id = r.test_id ∧
      (applyUpd r p).taken_at = r.taken_at ∧
      (p.answers = none →
        ∀ rid2, answersFor (update_result rid p db).1 rid2 = answersFor db rid2) ∧
      (∀ x ∈ db.results, x.id ≠ rid → x ∈ (update_result rid p db).1.results) := by
  intro db rid p r hfind
  have hfst := update_result_fst p hfind
  refine ⟨?_, ?_, ?_, ?_, ?_, ?_, rfl, rfl, rfl, ?_, ?_⟩
  · cases hpa : p.answers with
    | none =>
      rw [hfst, hpa]
      exact findResult_patchedDB p hfind
    | some l =>
      rw [hfst, hpa]
      show findResult (clearedDB rid (patchedDB rid p db)) rid = some (applyUpd r p)
      exact findResult_patchedDB p hfind
  · intro h; rw [show (applyUpd r p).score = p.score.getD r.score from rfl, h]; rfl
  · intro h
    rw [show (applyUpd r p).total_questions = p.total_questions.getD r.total_questions from rfl, h]
    rfl
  · intro h
    rw [show (applyUpd r p).correct_answers = p.correct_answers.getD r.correct_answers from rfl, h]
    rfl
  · intro h
    rw [show (applyUpd r p).points_earned = p.points_earned.getD r.points_earned from rfl, h]
    rfl
  · intro h
    rw [show (applyUpd r p).points_possible = p.points_possible.getD r.points_possible from rfl, h]
    rfl
  · intro h rid2
    rw [hfst, h]
    rfl
  · intro x hx hne
    cases hpa : p.answers with
    | none =>
      rw [hfst, hpa]
      show x ∈ db.results.map (fun y => if y.id == rid then applyUpd y p else y)
      rw [List.mem_map]
      refine ⟨x, hx, ?_⟩
      rw [if_neg (by simp [hne])]
    | some l =>
      rw [hfst, hpa]
      show x ∈ db.results.map (fun y => if y.id == rid then applyUpd y p else y)
      rw [List.mem_map]
      refine ⟨x, hx, ?_⟩
      rw [if_neg (by simp [hne])]

theorem c8_partial_update_frame_witness :
    findResult (update_result 1 { score := some (some (3/4)) } dbA).1 1
      = some (applyUpd rowA { score := some (some (3/4)) }) ∧
    (applyUpd rowA { score := some (some (3/4)) }).total_questions
      = rowA.total_questions ∧
    (applyUpd rowA { score := some (some (3/4)) }).user_id = rowA.user_id ∧
    ∀ rid2, answersFor (update_result 1 { score := some (some (3/4)) } dbA).1 rid2
      = answersFor dbA rid2 := by
  obtain ⟨hF, hsc, htq, hca, hpe, hpp, huid, htid, hta, hans, hmem⟩ :=
    c8_partial_update_frame dbA 1 { score := some (some (3/4)) } rowA (by decide)
  exact ⟨hF, htq rfl, huid, fun rid2 => hans rfl rid2⟩


/-- Unfolding of `delete_result` on a found row. -/
theorem delete_result_eq {db : DB} {rid : Nat} {r : ResultRow}
    (hfind : findResult db rid = some r) :
    delete_result rid db
      = ({ db with
            answers := db.answers.filter (fun a => a.test_result_id != rid)
            results := db.results.filter (fun x => x.id != rid) },
          none) := by
  rw [delete_result, hfind]

/-- Unfolding of `delete_result_for_user` on a found row. -/
theorem delete_result_for_user_eq {db : DB} {u : Int} {rid : Nat} {r : ResultRow}
    (hfind : findResult db rid = some r) :
    delete_result_for_user u rid db
      = if r.user_id != u then (db, some ApiError.forbidden)
        else
          ({ db with
              answers := db.answers.filter (fun a => a.test_result_id != rid)
              results := db.results.filter (fun x => x.id != rid) },
            none) := by
  rw [delete_result_for_user, hfind]

/-- C6.  Ownership-scoped delete: deleting through the owner-scoped
endpoint with a user id different from the stored one fails with
Forbidden and returns the store unchanged (the check precedes every
write); with the matching user id it succeeds and removes the result row
and all its children. -/
theorem c6_ownership_scoped_delete :
    ∀ (db : DB) (u : Int) (rid : Nat) (r : ResultRow),
      findResult db rid = some r →
      (r.user_id ≠ u →
        delete_result_for_user u rid db = (db, some ApiError.forbidden)) ∧
      (r.user_id = u →
        (delete_result_for_user u rid db).2 = none ∧
        findResult (delete_result_for_user u rid db).1 rid = none ∧
        answersFor (delete_result_for_user u rid db).1 rid = []) := by
  intro db u rid r hfind
  constructor
  · intro hne
    rw [delete_result_for_user_eq hfind, if_pos (bne_iff_ne.mpr hne)]
  · intro heq
    rw [delete_result_for_user_eq hfind, if_neg (by rw [heq]; simp)]
    refine ⟨rfl, ?_, ?_⟩
    · show List.find? (fun x => x.id == rid)
        (db.results.filter (fun x => x.id != rid)) = none
      rw [List.find?_eq_none]
      intro x hx
      have h2 := (List.mem_filter.mp hx).2
      simp only [bne_iff_ne, ne_eq] at h2
      simp [h2]
    · show (db.answers.filter (fun a => a.test_result_id != rid)).filter
        (fun a => a.test_result_id == rid) = []
      apply filter_false_of_all
      intro a ha
      have h2 := (List.mem_filter.mp ha).2
      simp only [bne_iff_ne, ne_eq] at h2
      simp [h2]

theorem c6_ownership_scoped_delete_witness :
    delete_result_for_user 9 1 dbA = (dbA, some ApiError.forbidden) ∧
    ((delete_result_for_user 1 1 dbA).2 = none ∧
     findResult (delete_result_for_user 1 1 dbA).1 1 = none ∧
     answersFor (delete_result_for_user 1 1 dbA).1 1 = []) :=
  ⟨(c6_ownership_scoped_delete dbA 9 1 rowA (by decide)).1 (by decide),
    (c6_ownership_scoped_delete dbA 1 1 rowA (by decide)).2 rfl⟩

/-- C7.  Cascade-delete invariant: both delete endpoints remove every
child row of the deleted result, so a store without orphaned answer rows
has none after any successful delete either. -/
theorem c7_cascade_delete_invariant :
    ∀ (db : DB) (rid : Nat) (u : Int) (db1 db2 : DB), noOrphans db →
      (delete_result rid db = (db1, none) → noOrphans db1) ∧
      (delete_result_for_user u rid db = (db2, none) → noOrphans db2) := by
  intro db rid u db1 db2 hno
  have hdel : noOrphans
      { db with
        answers := db.answers.filter (fun a => a.test_result_id != rid)
        results := db.results.filter (fun x => x.id != rid) } := by
    intro a ha
    obtain ⟨ha1, ha2⟩ := List.mem_filter.mp ha
    obtain ⟨rr, hrr, hid⟩ := hno a ha1
    simp only [bne_iff_ne, ne_eq] at ha2
    refine ⟨rr, List.mem_filter.mpr ⟨hrr, ?_⟩, hid⟩
    simp only [bne_iff_ne, ne_eq]
    rw [hid]
    exact ha2
  constructor
  · intro h
    cases hfind : findResult db rid with
    | none =>
      rw [delete_result, hfind] at h
      obtain ⟨-, h2⟩ := (Prod.mk.injEq ..).mp h
      exact absurd h2 (by simp)
    | some r =>
      rw [delete_result_eq hfind] at h
      obtain ⟨h1, -⟩ := (Prod.mk.injEq ..).mp h
      rw [← h1]
      exact hdel
  · intro h
    cases hfind : findResult db rid with
    | none =>
      rw [delete_result_for_user, hfind] at h
      obtain ⟨-, h2⟩ := (Prod.mk.injEq ..).mp h
      exact absurd h2 (by simp)
    | some r =>
      rw [delete_result_for_user_eq hfind] at h
      by_cases hu : r.user_id != u
      · rw [if_pos hu] at h
        obtain ⟨-, h2⟩ := (Prod.mk.injEq ..).mp h
        exact absurd h2 (by simp)
      · rw [if_neg hu] at h
        obtain ⟨h1, -⟩ := (Prod.mk.injEq ..).mp h
        rw [← h1]
        exact hdel

theorem c7_cascade_delete_invariant_witness :
    noOrphans (delete_result 1 dbA).1 ∧ noOrphans (delete_result_for_user 1 1 dbA).1 :=
  ⟨(c7_cascade_delete_invariant dbA 1 1 (delete_result 1 dbA).1
      (delete_result_for_user 1 1 dbA).1 (by decide)).1 (by decide),
   (c7_cascade_delete_invariant dbA 1 1 (delete_result 1 dbA).1
      (delete_result_for_user 1 1 dbA).1 (by decide)).2 (by decide)⟩

theorem filterMap_of_map_some {α β : Type} (f : α → Option β) :
    ∀ (l : List α) (xs : List β), l.map f = xs.map some → l.filterMap f = xs := by
  intro l
  induction l with
  | nil =>
    intro xs h
    cases xs with
    | nil => rfl
    | cons y ys => simp at h
  | cons x rest ih =>
    intro xs h
    cases xs with
    | nil => simp at h
    | cons y ys =>
      simp only [List.map_cons, List.cons.injEq] at h
      obtain ⟨h1, h2⟩ := h
      simp only [List.filterMap_cons, h1, ih ys h2]

/-- C9.  Aggregation correctness: the mean endpoint returns the
arithmetic mean of the user's (non-null) scores and the number of the
user's result rows; the progress endpoint returns the number of distinct
test ids among the user's results, the total test count (0 when
unavailable), and their ratio as a percentage (0 on a zero total). -/
theorem c9_aggregation_correctness :
    ∀ (db : DB) (u : Int) (scores : List ℚ),
      ((db.results.filter (fun r => r.user_id == u)).map (fun r => r.score)
          = scores.map some →
        get_user_mean_score db u
          = { user_id := u
              mean_score :=
                if List.length scores = 0 then none
                else some (scores.sum / (List.length scores : ℚ))
              count := List.length scores }) ∧
      get_user_progress db u
        = { user_id := u
            tests_taken :=
              ((db.results.filter (fun r => r.user_id == u)).map
                (fun r => r.test_id)).dedup.length
            total_tests := db.tests.getD 0
            percent :=
              if db.tests.getD 0 = 0 then 0
              else (((db.results.filter (fun r => r.user_id == u)).map
                  (fun r => r.test_id)).dedup.length : ℚ) / (db.tests.getD 0 : ℚ) * 100 } := by
  intro db u scores
  constructor
  · intro h
    have hf := filterMap_of_map_some (fun r => r.score)
      (db.results.filter (fun r => r.user_id == u)) scores h
    have hc : List.length (db.results.filter (fun r => r.user_id == u))
        = List.length scores := by
      have h2 := congrArg List.length h
      simp only [List.length_map] at h2
      exact h2
    simp only [get_user_mean_score]
    rw [hf, hc]
  · simp only [get_user_progress]
    rw [List.card_toFinset]

theorem c9_aggregation_correctness_witness :
    get_user_mean_score dbM 1
      = { user_id := 1, mean_score := some (7/10), count := 2 } ∧
    get_user_progress dbM 1
      = { user_id := 1, tests_taken := 2, total_tests := 5, percent := 40 } := by
  have h := c9_aggregation_correctness dbM 1 [1/2, 9/10]
  constructor
  · rw [h.1 rfl]
    have hs : ([1/2, 9/10] : List ℚ).sum = 7/5 := by
      norm_num [List.sum_cons, List.sum_nil]
    simp only [MeanOut.mk.injEq, List.length_cons, List.length_nil, hs]
    norm_num
  · rw [h.2]
    have hlen : ((dbM.results.filter (fun r => r.user_id == 1)).map
        (fun r => r.test_id)).dedup.length = 2 := by decide
    have ht : dbM.tests.getD 0 = 5 := rfl
    simp only [ProgressOut.mk.injEq, hlen, ht]
    norm_num
